import Mathlib

/-!
Shallow embedding of the libchip8 interpreter core (src/lib.rs).

Machine integers are modelled as `Nat` with explicit `% 2^w` at the points
where the Rust code performs wrapping arithmetic.  Rust's bounds-checked
array indexing (which panics on an out-of-range index) is modelled by
`Except Err`: every `self.mem[a]` / `self.stack[s]` access goes through a
guarded read/write returning `Except.error Err.oob` when the index is out of
range, mirroring the panic.  `unimplemented!()` in the `SYS` arm and the
`panic!` in the catch-all arm are `Err.sysop` and `Err.invalid`.  The `%` by
a framebuffer dimension of zero (a Rust divide-by-zero panic) is
`Err.divzero`.  Shifts by constants and power-of-two masks from the source
are rendered as division / multiplication / modulus on `Nat`, which agree
with the unsigned machine operations.  The `Hardware` trait is modelled as a
record of deterministic streams and a pixel store (`Hw`): `clkf`/`clkn` is
the monotone clock as a stream of `u64` readings consumed one per call,
`schedf`/`schedn` the per-step shutdown callback, `randf`/`randn` the RNG,
`keys` the key state, `fb`/`fbw`/`fbh` the adapter-owned framebuffer, and
`beeps` counts beep notifications.  `waitkey`'s unbounded polling loop takes
an explicit fuel argument; exhausting it yields the model artifact
`Err.fuelout`, which no theorem below relies on.  The fetch's `pc + 1` is
plain `Nat` addition: the u16 sum cannot overflow before the bounds check
fails, because a fetch is only reached with `pc` well below 65535.
-/

/-- Fatal outcomes of the interpreter: each constructor corresponds to one
panic site of the Rust source (out-of-bounds index, invalid opcode,
unimplemented SYS opcode, modulo by a zero framebuffer dimension), plus the
fuel-exhaustion artifact of the `waitkey` model. -/
inductive Err where
  | oob : Err
  | invalid : Err
  | sysop : Err
  | divzero : Err
  | fuelout : Err
deriving DecidableEq

/-- The platform adapter (`Hardware` trait) as deterministic state. -/
structure Hw where
  fb : Nat → Nat → Bool
  fbw : Nat
  fbh : Nat
  clkf : Nat → Nat
  clkn : Nat
  keys : Nat → Bool
  randf : Nat → Nat
  randn : Nat
  schedf : Nat → Bool
  schedn : Nat
  beeps : Nat

/-- Interpreter state, mirroring `struct Chip8` field for field.
Registers, memory and the stack are total functions; the Rust arrays'
bounds checks are enforced by the guarded access functions below. -/
structure Chip8 where
  v : Nat → Nat
  i : Nat
  dt : Nat
  st : Nat
  pc : Nat
  sp : Nat
  mem : Nat → Nat
  stack : Nat → Nat
  time : Option Nat
  running : Bool
  hw : Hw

/-- Pointwise update of a `Nat`-indexed store. -/
def fset (f : Nat → Nat) (k d : Nat) : Nat → Nat :=
  fun j => if j = k then d else f j

/-- Pointwise update of the 2-D pixel store. -/
def fset2 (f : Nat → Nat → Bool) (x y : Nat) (d : Bool) : Nat → Nat → Bool :=
  fun a b => if a = x ∧ b = y then d else f a b

/-- `self.mem[a]` with the Rust bounds check (`MEMS = 4096`). -/
def memRead (c : Chip8) (a : Nat) : Except Err Nat :=
  if a < 4096 then .ok (c.mem a) else .error .oob

/-- `self.mem[a] = d` with the Rust bounds check. -/
def memWrite (c : Chip8) (a d : Nat) : Except Err Chip8 :=
  if a < 4096 then .ok { c with mem := fset c.mem a d } else .error .oob

/-- `self.stack[s]` with the Rust bounds check (`STACKS = 16`). -/
def stackRead (c : Chip8) (s : Nat) : Except Err Nat :=
  if s < 16 then .ok (c.stack s) else .error .oob

/-- `self.stack[s] = d` with the Rust bounds check. -/
def stackWrite (c : Chip8) (s d : Nat) : Except Err Chip8 :=
  if s < 16 then .ok { c with stack := fset c.stack s d } else .error .oob

/-- `Chip8::push`: store at `stack[sp]`, then `sp = sp.wrapping_add(1)`. -/
def push (c : Chip8) (item : Nat) : Except Err Chip8 :=
  match stackWrite c c.sp item with
  | .error e => .error e
  | .ok c2 => .ok { c2 with sp := (c2.sp + 1) % 256 }

/-- `Chip8::pop`: `sp = sp.wrapping_sub(1)`, then read `stack[sp]` (the
decremented `sp` indexes the unchanged stack array). -/
def pop (c : Chip8) : Except Err (Nat × Chip8) :=
  match stackRead c ((c.sp + 256 - 1) % 256) with
  | .error e => .error e
  | .ok item => .ok (item, { c with sp := (c.sp + 256 - 1) % 256 })

/-- `Chip8::jump`. -/
def jump (c : Chip8) (pc : Nat) : Chip8 :=
  { c with pc := pc }

/-- `Chip8::next`: `jump(pc.wrapping_add(2))` on the 16-bit `pc`. -/
def next (c : Chip8) : Chip8 :=
  jump c ((c.pc + 2) % 65536)

/-- `Chip8::shutdown`. -/
def shutdown (c : Chip8) : Chip8 :=
  { c with running := false }

/-- One call of `self.hw.clock()`: the next `u64` clock reading. -/
def clockRead (c : Chip8) : Nat × Chip8 :=
  (c.hw.clkf c.hw.clkn % 2 ^ 64,
   { c with hw := { c.hw with clkn := c.hw.clkn + 1 } })

/-- One call of `self.hw.sched()`. -/
def hwSched (c : Chip8) : Bool × Chip8 :=
  (c.hw.schedf c.hw.schedn,
   { c with hw := { c.hw with schedn := c.hw.schedn + 1 } })

/-- One call of `self.hw.rand()` (a `u8`). -/
def randRead (c : Chip8) : Nat × Chip8 :=
  (c.hw.randf c.hw.randn % 256,
   { c with hw := { c.hw with randn := c.hw.randn + 1 } })

/-- One call of `self.hw.beep()`. -/
def beep (c : Chip8) : Chip8 :=
  { c with hw := { c.hw with beeps := c.hw.beeps + 1 } }

/-- `Chip8::tick`: the 60 Hz timer event. -/
def tick (c : Chip8) : Chip8 :=
  let c1 : Chip8 := if c.dt > 0 then { c with dt := c.dt - 1 } else c
  if c1.st > 0 then
    let c2 : Chip8 := { c1 with st := c1.st - 1 }
    if c2.st = 0 then beep c2 else c2
  else c1

/-- `u64::wrapping_sub`. -/
def wsub64 (a b : Nat) : Nat :=
  (a + 2 ^ 64 - b % 2 ^ 64) % 2 ^ 64

/-- `Chip8::sched`: the per-step scheduling call. -/
def sched (c : Chip8) : Chip8 :=
  let p := hwSched c
  let c1 : Chip8 := if p.1 then shutdown p.2 else p.2
  match c1.time with
  | some t =>
    let q := clockRead c1
    if wsub64 q.1 t > 1000000000 / 60 then
      let c2 := tick q.2
      let r := clockRead c2
      { r.2 with time := some r.1 }
    else q.2
  | none =>
    let q := clockRead c1
    { q.2 with time := some q.1 }

/-- Iterated scheduling steps. -/
def schedN : Nat → Chip8 → Chip8
  | 0, c => c
  | n + 1, c => schedN n (sched c)

/-- The key poll of `Chip8::waitkey`: `for i in 0..0xf` returns the first
pressed key among codes 0..14 (code 15 is never polled). -/
def findKey (c : Chip8) : Option Nat :=
  (List.range 15).find? (fun k => c.hw.keys k)

/-- `Chip8::waitkey` with explicit fuel for its unbounded `while` loop. -/
def waitkey : Nat → Chip8 → Except Err (Nat × Chip8)
  | 0, _ => .error .fuelout
  | fuel + 1, c =>
    if c.running then
      let c1 := sched c
      match findKey c1 with
      | some k => .ok (k, c1)
      | none => waitkey fuel c1
    else .ok (32, c)

/-- Rust `for` loop over a list of indices with panic propagation. -/
def foldE (f : Chip8 → Nat → Except Err Chip8) : List Nat → Chip8 → Except Err Chip8
  | [], c => .ok c
  | a :: L, c =>
    match f c a with
    | .error e => .error e
    | .ok c2 => foldE f L c2

/-- Inner body of the DRW double loop (`for x in 0..8`): one sprite bit.
`src = (b & 1 << (7 - x)) > 0`, the pixel is XORed, `VF |= src && dst`. -/
def drwBit (w vramy b basex : Nat) (c : Chip8) (xx : Nat) : Except Err Chip8 :=
  if w = 0 then .error .divzero
  else
    let vramx := (xx + basex) % w
    let src := decide (b / 2 ^ (7 - xx) % 2 = 1)
    let dst := c.hw.fb vramx vramy
    let c1 : Chip8 := { c with v := fset c.v 15 (c.v 15 ||| (src && dst).toNat) }
    .ok { c1 with hw := { c1.hw with fb := fset2 c1.hw.fb vramx vramy (xor src dst) } }

/-- Outer body of the DRW double loop (`for y in 0..n`): one sprite row. -/
def drwRow (w h basex basey : Nat) (c : Chip8) (yy : Nat) : Except Err Chip8 :=
  match memRead c (c.i + yy) with
  | .error e => .error e
  | .ok b =>
    if h = 0 then .error .divzero
    else foldE (drwBit w ((yy + basey) % h) b basex) (List.range 8) c

/-- High nibble of the fetched big-endian instruction `u*256 + l`. -/
def n1Of (u l : Nat) : Nat := (u * 256 + l) / 4096 % 16

/-- Second nibble (`x`, bits 8-11). -/
def n2Of (u l : Nat) : Nat := (u * 256 + l) / 256 % 16

/-- Third nibble (`y`, bits 4-7). -/
def n3Of (u l : Nat) : Nat := (u * 256 + l) / 16 % 16

/-- Low nibble (`n`, bits 0-3). -/
def n4Of (u l : Nat) : Nat := (u * 256 + l) % 16

/-- Address operand `nnn` (low 12 bits). -/
def nnnOf (u l : Nat) : Nat := (u * 256 + l) % 4096

/-- Immediate operand `kk` (low 8 bits). -/
def kkOf (u l : Nat) : Nat := (u * 256 + l) % 256

/-- Decode and execute one fetched instruction (the `match` of
`Chip8::eval` after the two-byte fetch); `u` and `l` are the bytes at
`pc` and `pc + 1`. -/
def execOp (fuel u l : Nat) (c : Chip8) : Except Err Chip8 :=
  match n1Of u l, n2Of u l, n3Of u l, n4Of u l with
  | 0, 0, 0xe, 0 =>
    .ok { c with hw := { c.hw with fb := fun a b =>
      if a < c.hw.fbw ∧ b < c.hw.fbh then false else c.hw.fb a b } }
  | 0, 0, 0xe, 0xe =>
    match pop c with
    | .error e => .error e
    | .ok p => .ok (jump p.2 p.1)
  | 0, _, _, _ => .error .sysop
  | 1, _, _, _ => .ok (jump c ((nnnOf u l + 65536 - 2) % 65536))
  | 2, _, _, _ =>
    match push c c.pc with
    | .error e => .error e
    | .ok c2 => .ok (jump c2 ((nnnOf u l + 65536 - 2) % 65536))
  | 3, _, _, _ => .ok (if c.v (n2Of u l) = kkOf u l then next c else c)
  | 4, _, _, _ => .ok (if c.v (n2Of u l) ≠ kkOf u l then next c else c)
  | 5, _, _, 0 => .ok (if c.v (n2Of u l) = c.v (n3Of u l) then next c else c)
  | 6, _, _, _ => .ok { c with v := fset c.v (n2Of u l) (kkOf u l) }
  | 7, _, _, _ =>
    .ok { c with v := fset c.v (n2Of u l) ((c.v (n2Of u l) + kkOf u l) % 256) }
  | 8, _, _, 0 => .ok { c with v := fset c.v (n2Of u l) (c.v (n3Of u l)) }
  | 8, _, _, 1 =>
    .ok { c with v := fset c.v (n2Of u l) (c.v (n2Of u l) ||| c.v (n3Of u l)) }
  | 8, _, _, 2 =>
    .ok { c with v := fset c.v (n2Of u l) (c.v (n2Of u l) &&& c.v (n3Of u l)) }
  | 8, _, _, 3 =>
    .ok { c with v := fset c.v (n2Of u l) (c.v (n2Of u l) ^^^ c.v (n3Of u l)) }
  | 8, _, _, 4 =>
    let s := c.v (n2Of u l) + c.v (n3Of u l)
    .ok { c with v := fset (fset c.v (n2Of u l) (s % 256)) 15 (if 256 ≤ s then 1 else 0) }
  | 8, _, _, 5 =>
    let bor := c.v (n2Of u l) < c.v (n3Of u l)
    let r := if bor then c.v (n2Of u l) + 256 - c.v (n3Of u l)
             else c.v (n2Of u l) - c.v (n3Of u l)
    .ok { c with v := fset (fset c.v (n2Of u l) r) 15 (if bor then 0 else 1) }
  | 8, _, _, 6 =>
    let v1 := fset c.v 15 (c.v (n2Of u l) % 2)
    .ok { c with v := fset v1 (n2Of u l) (v1 (n2Of u l) / 2) }
  | 8, _, _, 7 =>
    let bor := c.v (n3Of u l) < c.v (n2Of u l)
    let r := if bor then c.v (n3Of u l) + 256 - c.v (n2Of u l)
             else c.v (n3Of u l) - c.v (n2Of u l)
    .ok { c with v := fset (fset c.v (n2Of u l) r) 15 (if bor then 0 else 1) }
  | 8, _, _, 0xe =>
    let v1 := fset c.v 15 (c.v (n2Of u l) / 128 % 2)
    .ok { c with v := fset v1 (n2Of u l) (v1 (n2Of u l) * 2 % 256) }
  | 9, _, _, 0 => .ok (if c.v (n2Of u l) ≠ c.v (n3Of u l) then next c else c)
  | 0xa, _, _, _ => .ok { c with i := nnnOf u l }
  | 0xb, _, _, _ =>
    .ok (jump c (((nnnOf u l + c.v 0) % 65536 + 65536 - 2) % 65536))
  | 0xc, _, _, _ =>
    let p := randRead c
    .ok { p.2 with v := fset p.2.v (n2Of u l) (p.1 &&& kkOf u l) }
  | 0xd, _, _, _ =>
    let basex := c.v (n2Of u l)
    let basey := c.v (n3Of u l)
    foldE (drwRow c.hw.fbw c.hw.fbh basex basey) (List.range (n4Of u l))
      { c with v := fset c.v 15 0 }
  | 0xe, _, 9, 0xe => .ok (if c.hw.keys (c.v (n2Of u l)) then next c else c)
  | 0xe, _, 0xa, 1 => .ok (if ¬ c.hw.keys (c.v (n2Of u l)) then next c else c)
  | 0xf, _, 0, 7 => .ok { c with v := fset c.v (n2Of u l) c.dt }
  | 0xf, _, 0, 0xa =>
    match waitkey fuel c with
    | .error e => .error e
    | .ok p => .ok { p.2 with v := fset p.2.v (n2Of u l) p.1 }
  | 0xf, _, 1, 5 => .ok { c with dt := c.v (n2Of u l) }
  | 0xf, _, 1, 8 => .ok { c with st := c.v (n2Of u l) }
  | 0xf, _, 1, 0xe => .ok { c with i := (c.i + c.v (n2Of u l)) % 65536 }
  | 0xf, _, 2, 9 => .ok { c with i := c.v (n2Of u l) * 5 % 256 }
  | 0xf, _, 3, 3 =>
    let bcd := c.v (n2Of u l)
    match memWrite c c.i (bcd / 100 % 10) with
    | .error e => .error e
    | .ok c1 =>
      match memWrite c1 (c1.i + 1) (bcd / 10 % 10) with
      | .error e => .error e
      | .ok c2 => memWrite c2 (c2.i + 2) (bcd % 10)
  | 0xf, _, 5, 5 =>
    foldE (fun c2 j => memWrite c2 (c2.i + j) (c2.v j))
      (List.range (n2Of u l + 1)) c
  | 0xf, _, 6, 5 =>
    foldE (fun c2 j =>
        match memRead c2 (c2.i + j) with
        | .error e => .error e
        | .ok d => .ok { c2 with v := fset c2.v j d })
      (List.range (n2Of u l + 1)) c
  | _, _, _, _ => .error .invalid

/-- `Chip8::eval`: fetch the two instruction bytes at `pc` and `pc + 1`
(each a bounds-checked memory access), then dispatch. -/
def eval (fuel : Nat) (c : Chip8) : Except Err Chip8 :=
  match memRead c c.pc with
  | .error e => .error e
  | .ok u =>
    match memRead c (c.pc + 1) with
    | .error e => .error e
    | .ok l => execOp fuel u l c

/-- The built-in hex font (`CHARBUF`). -/
def CHARBUF : List Nat :=
  [0xf0, 0x90, 0x90, 0x90, 0xf0,
   0x20, 0x60, 0x20, 0x20, 0x70,
   0xf0, 0x10, 0xf0, 0x80, 0xf0,
   0xf0, 0x10, 0xf0, 0x10, 0xf0,
   0x90, 0x90, 0xf0, 0x10, 0x10,
   0xf0, 0x80, 0xf0, 0x10, 0xf0,
   0xf0, 0x80, 0xf0, 0x90, 0xf0,
   0xf0, 0x10, 0x20, 0x40, 0x40,
   0xf0, 0x90, 0xf0, 0x90, 0xf0,
   0xf0, 0x90, 0xf0, 0x10, 0xf0,
   0xf0, 0x90, 0xf0, 0x90, 0x90,
   0xe0, 0x90, 0xe0, 0x90, 0xe0,
   0xf0, 0x80, 0x80, 0x80, 0xf0,
   0xe0, 0x90, 0x90, 0x90, 0xe0,
   0xf0, 0x80, 0xf0, 0x80, 0xf0,
   0xf0, 0x80, 0xf0, 0x80, 0x80]

/-- `Chip8::new`: all state zero-initialized, not running. -/
def newChip8 (hw : Hw) : Chip8 :=
  { v := fun _ => 0, i := 0, dt := 0, st := 0, pc := 0, sp := 0,
    mem := fun _ => 0, stack := fun _ => 0, time := none, running := false,
    hw := hw }

/-- `Chip8::setup`: `pc = ENTRY (512)`, size the framebuffer to 64×32, copy
the font to memory offset 0, mark running. -/
def setup (c : Chip8) : Chip8 :=
  { c with pc := 512,
           hw := { c.hw with fbw := 64, fbh := 32 },
           mem := fun a => if a < CHARBUF.length then CHARBUF.getD a 0 else c.mem a,
           running := true }

/-- `Chip8::load`: copy the ROM bytes to memory offset `ROMBASE (512)`. -/
def load (c : Chip8) (rom : List Nat) : Chip8 :=
  { c with mem := fun a =>
      if 512 ≤ a ∧ a < 512 + rom.length then rom.getD (a - 512) 0 else c.mem a }

/-- One iteration of the `run` loop: if running, `sched`, `eval`, `next`. -/
def step (fuel : Nat) (c : Chip8) : Except Err Chip8 :=
  if c.running then
    match eval fuel (sched c) with
    | .error e => .error e
    | .ok c2 => .ok (next c2)
  else .ok c

/-- Iterated `run`-loop steps. -/
def steps (fuel : Nat) : Nat → Chip8 → Except Err Chip8
  | 0, c => .ok c
  | n + 1, c =>
    match step fuel c with
    | .error e => .error e
    | .ok c2 => steps fuel n c2

/-- The fatal outcome of an execution, if any (projection that forgets the
τ-state so that results are decidably comparable). -/
def errOf {α : Type} : Except Err α → Option Err
  | .error e => some e
  | .ok _ => none

/-- The value of `I` after a successful execution, if it succeeded. -/
def okI : Except Err Chip8 → Option Nat
  | .error _ => none
  | .ok c => some c.i

/-- An all-zero adapter used for concrete executions. -/
def hw0 : Hw :=
  { fb := fun _ _ => false, fbw := 0, fbh := 0,
    clkf := fun _ => 0, clkn := 0,
    keys := fun _ => false,
    randf := fun _ => 0, randn := 0,
    schedf := fun _ => false, schedn := 0, beeps := 0 }

/-- Booted machine loaded with `LD I, 0xFFF; LD B, V1`: the second
instruction stores BCD digits at addresses 4095, 4096, 4097. -/
def c1boot : Chip8 :=
  load (setup (newChip8 hw0)) [0xaf, 0xff, 0xf1, 0x33]

/-- A ROM of 17 nested `CALL` instructions, each calling the next byte pair
(`CALL 514`, `CALL 516`, ...). -/
def rom17 : List Nat :=
  (List.range 17).flatMap (fun k => [0x22, 2 + 2 * k])

/-- Booted machine loaded with the 17-nested-`CALL` ROM. -/
def c2boot : Chip8 :=
  load (setup (newChip8 hw0)) rom17

/-- State with `I = 0xFFF`, `V1 = 10`, about to execute `ADD I, V1`. -/
def c7cx : Chip8 :=
  { v := fset (fun _ => 0) 1 10, i := 4095, dt := 0, st := 0, pc := 512, sp := 0,
    mem := fun a => if a = 512 then 0xf1 else if a = 513 then 0x1e else 0,
    stack := fun _ => 0, time := none, running := true, hw := hw0 }

/-- State with `I = 0xFFF` about to execute `LD B, V1` (opcode `F133`),
an instruction that matches the opcode table. -/
def c9cx : Chip8 :=
  { v := fun _ => 0, i := 4095, dt := 0, st := 0, pc := 512, sp := 0,
    mem := fun a => if a = 512 then 0xf1 else if a = 513 then 0x33 else 0,
    stack := fun _ => 0, time := none, running := true, hw := hw0 }

/-- State whose program counter is past the end of memory. -/
def cw1 : Chip8 :=
  { newChip8 hw0 with pc := 5000 }

/-- State about to execute `CALL 600`, with `RET` placed at 600. -/
def cw4 : Chip8 :=
  { v := fun _ => 0, i := 0, dt := 0, st := 0, pc := 512, sp := 0,
    mem := fun a => if a = 512 then 34 else if a = 513 then 88
      else if a = 600 then 0 else if a = 601 then 238 else 0,
    stack := fun _ => 0, time := none, running := true, hw := hw0 }

/-- State about to execute `JP 600`. -/
def cw4b : Chip8 :=
  { cw4 with mem := fun a => if a = 512 then 18 else if a = 513 then 88 else 0 }

/-- State about to execute `ADD I, V1` with `I = 100`, `V1 = 7`. -/
def cw7 : Chip8 :=
  { v := fset (fun _ => 0) 1 7, i := 100, dt := 0, st := 0, pc := 512, sp := 0,
    mem := fun a => if a = 512 then 241 else if a = 513 then 30 else 0,
    stack := fun _ => 0, time := none, running := true, hw := hw0 }

/-- State about to execute `ADD V1, V2` with `V1 = 200`, `V2 = 100`. -/
def cw8a : Chip8 :=
  { v := fset (fset (fun _ => 0) 1 200) 2 100, i := 0, dt := 0, st := 0,
    pc := 512, sp := 0,
    mem := fun a => if a = 512 then 129 else if a = 513 then 36 else 0,
    stack := fun _ => 0, time := none, running := true, hw := hw0 }

/-- State about to execute `SUB V1, V2` with `V1 = 200`, `V2 = 100`. -/
def cw8b : Chip8 :=
  { cw8a with mem := fun a => if a = 512 then 129 else if a = 513 then 37 else 0 }

/-- State about to execute `ADD VF, V2` with `VF = 200`, `V2 = 100`. -/
def cw10 : Chip8 :=
  { v := fset (fset (fun _ => 0) 15 200) 2 100, i := 0, dt := 0, st := 0,
    pc := 512, sp := 0,
    mem := fun a => if a = 512 then 143 else if a = 513 then 36 else 0,
    stack := fun _ => 0, time := none, running := true, hw := hw0 }

/-- Adapter whose clock stream advances one full second per reading —
every reading crosses a 1/60 s boundary (a larger-than-1/60 s jump). -/
def C3hw : Hw :=
  { hw0 with clkf := fun m => (m + 1) * 1000000000 }

/-- The state after `k` boundary-crossing scheduling steps from a machine
whose delay timer started at `N` with a recorded timestamp: `dt = N - k`,
and two clock readings have been consumed per elapsed step. -/
def C3at (N k : Nat) : Chip8 :=
  { newChip8 C3hw with
      dt := N - k,
      time := some (2 * k * 1000000000),
      running := true,
      hw := { C3hw with clkn := 2 * k, schedn := k } }

/-- One DRW pixel update as the spec words it: for row `r` and bit `b`
(MSB first), target `x = (Vx + b) mod width`, `y = (Vy + r) mod height`,
new pixel = old pixel XOR sprite bit, and the collision flag is
OR-accumulated from `sprite bit AND old pixel`. -/
def drawSpecStep (w h basex basey : Nat) (sprite : Nat → Nat)
    (p : (Nat → Nat → Bool) × Bool) (rb : Nat × Nat) : (Nat → Nat → Bool) × Bool :=
  let ty := (basey + rb.1) % h
  let tx := (basex + rb.2) % w
  let bit := Nat.testBit (sprite rb.1) (7 - rb.2)
  let old := p.1 tx ty
  (fset2 p.1 tx ty (xor old bit), p.2 || (bit && old))

/-- The row/bit index pairs of an `n`-row sprite, in draw order:
`r in [0,n)` outer, `b in [0,8)` inner. -/
def drawPairs (n : Nat) : List (Nat × Nat) :=
  (List.range n).flatMap (fun r => (List.range 8).map (fun b => (r, b)))

/-- The whole DRW as the spec words it: starting from the framebuffer and
a cleared collision flag, apply `drawSpecStep` to every row/bit pair. -/
def drawSpec (w h basex basey n : Nat) (sprite : Nat → Nat) (fb : Nat → Nat → Bool) :
    (Nat → Nat → Bool) × Bool :=
  (drawPairs n).foldl (drawSpecStep w h basex basey sprite) (fb, false)

/-- A state that differs from `base` only in the framebuffer and `VF`. -/
def withDraw (base : Chip8) (fb : Nat → Nat → Bool) (k : Nat) : Chip8 :=
  { base with v := fset base.v 15 k, hw := { base.hw with fb := fb } }

/-- Adapter with the canonical 64×32 framebuffer size. -/
def hwfb : Hw :=
  { hw0 with fbw := 64, fbh := 32 }

/-- State about to execute `DRW V1, V2, 3` with the sprite at `I = 0`. -/
def cw5 : Chip8 :=
  { v := fset (fset (fun _ => 0) 1 3) 2 4, i := 0, dt := 0, st := 0,
    pc := 512, sp := 0,
    mem := fun a => if a = 512 then 209 else if a = 513 then 35
      else if a = 0 then 240 else if a = 1 then 144 else if a = 2 then 240 else 0,
    stack := fun _ => 0, time := none, running := true, hw := hwfb }

/-- State with `DRW V1, V2, 3` at 512 and again at 514 (sprite at `I = 0`,
fully inside the 64×32 framebuffer). -/
def cw6 : Chip8 :=
  { v := fset (fset (fun _ => 0) 1 3) 2 4, i := 0, dt := 0, st := 0,
    pc := 512, sp := 0,
    mem := fun a => if a = 512 then 209 else if a = 513 then 35
      else if a = 514 then 209 else if a = 515 then 35
      else if a = 0 then 240 else if a = 1 then 144 else if a = 2 then 240 else 0,
    stack := fun _ => 0, time := none, running := true, hw := hwfb }

/-- Result of the first DRW of `cw6`. -/
def cw6a : Chip8 :=
  withDraw cw6
    (drawSpec cw6.hw.fbw cw6.hw.fbh (cw6.v 1) (cw6.v 2) 3
      (fun r => cw6.mem (cw6.i + r)) cw6.hw.fb).1
    (drawSpec cw6.hw.fbw cw6.hw.fbh (cw6.v 1) (cw6.v 2) 3
      (fun r => cw6.mem (cw6.i + r)) cw6.hw.fb).2.toNat

/-- Result of the second DRW of `cw6`. -/
def cw6b : Chip8 :=
  withDraw (next cw6a)
    (drawSpec (next cw6a).hw.fbw (next cw6a).hw.fbh ((next cw6a).v 1) ((next cw6a).v 2) 3
      (fun r => (next cw6a).mem ((next cw6a).i + r)) (next cw6a).hw.fb).1
    (drawSpec (next cw6a).hw.fbw (next cw6a).hw.fbh ((next cw6a).v 1) ((next cw6a).v 2) 3
      (fun r => (next cw6a).mem ((next cw6a).i + r)) (next cw6a).hw.fb).2.toNat

/-- Classification of the dispatch by its four instruction nibbles,
transcribed from the `match` arms of `Chip8::eval`: `some .sysop` for the
`0nnn` family other than `00E0`/`00EE` (the `unimplemented!()` arm),
`some .invalid` for nibble patterns matching no table entry (the `panic!`
catch-all), `none` when some table arm matches. -/
def fatalClass (a b d e : Nat) : Option Err :=
  if a = 0 then
    (if b = 0 ∧ d = 14 ∧ (e = 0 ∨ e = 14) then none else some .sysop)
  else if a = 1 ∨ a = 2 ∨ a = 3 ∨ a = 4 ∨ a = 6 ∨ a = 7 ∨ a = 10 ∨ a = 11 ∨ a = 12 ∨ a = 13 then
    none
  else if a = 5 then (if e = 0 then none else some .invalid)
  else if a = 8 then (if e ≤ 7 ∨ e = 14 then none else some .invalid)
  else if a = 9 then (if e = 0 then none else some .invalid)
  else if a = 14 then (if (d = 9 ∧ e = 14) ∨ (d = 10 ∧ e = 1) then none else some .invalid)
  else if a = 15 then
    (if (d = 0 ∧ e = 7) ∨ (d = 0 ∧ e = 10) ∨ (d = 1 ∧ e = 5) ∨ (d = 1 ∧ e = 8) ∨
        (d = 1 ∧ e = 14) ∨ (d = 2 ∧ e = 9) ∨ (d = 3 ∧ e = 3) ∨ (d = 5 ∧ e = 5) ∨
        (d = 6 ∧ e = 5) then none else some .invalid)
  else some .invalid

/-- State about to execute the invalid opcode `5A21` (`5xyk` with `k ≠ 0`
matches no table entry). -/
def cw9 : Chip8 :=
  { v := fun _ => 0, i := 0, dt := 0, st := 0, pc := 512, sp := 0,
    mem := fun a => if a = 512 then 90 else if a = 513 then 33 else 0,
    stack := fun _ => 0, time := none, running := true, hw := hw0 }

/-- State about to execute `LD B, V1` (`F133`) with `I = 4094`: the third
BCD write indexes `mem[4096]`. -/
def cw9b : Chip8 :=
  { v := fun _ => 0, i := 4094, dt := 0, st := 0, pc := 512, sp := 0,
    mem := fun a => if a = 512 then 241 else if a = 513 then 51 else 0,
    stack := fun _ => 0, time := none, running := true, hw := hw0 }

/-!  Theorems.  First the generic decode/arm reduction lemmas. -/

theorem eval_exec (fuel : Nat) (c : Chip8) (h : c.pc + 1 < 4096) :
    eval fuel c = execOp fuel (c.mem c.pc) (c.mem (c.pc + 1)) c := by
  unfold eval memRead
  rw [if_pos (by omega), if_pos h]

theorem n1Of_eq (a b l : Nat) (ha : a < 16) (hb : b < 16) (hl : l < 256) :
    n1Of (16 * a + b) l = a := by
  unfold n1Of; omega

theorem n2Of_eq (a b l : Nat) (ha : a < 16) (hb : b < 16) (hl : l < 256) :
    n2Of (16 * a + b) l = b := by
  unfold n2Of; omega

theorem n3Of_eq (u cc dd : Nat) (hu : u < 256) (hc : cc < 16) (hd : dd < 16) :
    n3Of u (16 * cc + dd) = cc := by
  unfold n3Of
  omega

theorem n4Of_eq (u cc dd : Nat) (hu : u < 256) (hc : cc < 16) (hd : dd < 16) :
    n4Of u (16 * cc + dd) = dd := by
  unfold n4Of
  omega

theorem kkOf_eq (u l : Nat) (hu : u < 256) (hl : l < 256) : kkOf u l = l := by
  unfold kkOf; omega

theorem nnnOf_eq (a b l : Nat) (ha : a < 16) (hb : b < 16) (hl : l < 256) :
    nnnOf (16 * a + b) l = 256 * b + l := by
  unfold nnnOf; omega

theorem execOp_addI (fuel : Nat) (c : Chip8) (x : Nat) (hx : x < 16) :
    execOp fuel (16 * 15 + x) (16 * 1 + 14) c =
      .ok { c with i := (c.i + c.v x) % 65536 } := by
  unfold execOp
  rw [n1Of_eq 15 x _ (by omega) hx (by omega),
      n2Of_eq 15 x _ (by omega) hx (by omega),
      n3Of_eq _ 1 14 (by omega) (by omega) (by omega),
      n4Of_eq _ 1 14 (by omega) (by omega) (by omega)]

theorem execOp_add8 (fuel : Nat) (c : Chip8) (x y : Nat) (hx : x < 16) (hy : y < 16) :
    execOp fuel (16 * 8 + x) (16 * y + 4) c =
      .ok { c with v := fset (fset c.v x ((c.v x + c.v y) % 256)) 15
                     (if 256 ≤ c.v x + c.v y then 1 else 0) } := by
  unfold execOp
  rw [n1Of_eq 8 x _ (by omega) hx (by omega), n2Of_eq 8 x _ (by omega) hx (by omega),
      n3Of_eq _ y 4 (by omega) hy (by omega), n4Of_eq _ y 4 (by omega) hy (by omega)]

theorem execOp_sub8 (fuel : Nat) (c : Chip8) (x y : Nat) (hx : x < 16) (hy : y < 16) :
    execOp fuel (16 * 8 + x) (16 * y + 5) c =
      .ok { c with v :=
              (fset (fset c.v x (if c.v x < c.v y then c.v x + 256 - c.v y else c.v x - c.v y))
                15 (if c.v x < c.v y then 0 else 1)) } := by
  unfold execOp
  rw [n1Of_eq 8 x _ (by omega) hx (by omega), n2Of_eq 8 x _ (by omega) hx (by omega),
      n3Of_eq _ y 5 (by omega) hy (by omega), n4Of_eq _ y 5 (by omega) hy (by omega)]

theorem execOp_subn8 (fuel : Nat) (c : Chip8) (x y : Nat) (hx : x < 16) (hy : y < 16) :
    execOp fuel (16 * 8 + x) (16 * y + 7) c =
      .ok { c with v :=
              (fset (fset c.v x (if c.v y < c.v x then c.v y + 256 - c.v x else c.v y - c.v x))
                15 (if c.v y < c.v x then 0 else 1)) } := by
  unfold execOp
  rw [n1Of_eq 8 x _ (by omega) hx (by omega), n2Of_eq 8 x _ (by omega) hx (by omega),
      n3Of_eq _ y 7 (by omega) hy (by omega), n4Of_eq _ y 7 (by omega) hy (by omega)]

theorem execOp_drw (fuel : Nat) (c : Chip8) (x y n : Nat)
    (hx : x < 16) (hy : y < 16) (hn : n < 16) :
    execOp fuel (16 * 13 + x) (16 * y + n) c =
      foldE (drwRow c.hw.fbw c.hw.fbh (c.v x) (c.v y)) (List.range n)
        { c with v := fset c.v 15 0 } := by
  unfold execOp
  rw [n1Of_eq 13 x _ (by omega) hx (by omega), n2Of_eq 13 x _ (by omega) hx (by omega),
      n3Of_eq _ y n (by omega) hy hn, n4Of_eq _ y n (by omega) hy hn]

theorem execOp_call (fuel : Nat) (c : Chip8) (hi lo : Nat) (hhi : hi < 16) (hlo : lo < 256) :
    execOp fuel (16 * 2 + hi) lo c =
      (match push c c.pc with
       | .error e => .error e
       | .ok c2 => .ok (jump c2 ((256 * hi + lo + 65536 - 2) % 65536))) := by
  unfold execOp
  rw [nnnOf_eq 2 hi _ (by omega) hhi hlo, n1Of_eq 2 hi _ (by omega) hhi hlo]

theorem execOp_jp (fuel : Nat) (c : Chip8) (hi lo : Nat) (hhi : hi < 16) (hlo : lo < 256) :
    execOp fuel (16 * 1 + hi) lo c =
      .ok (jump c ((256 * hi + lo + 65536 - 2) % 65536)) := by
  unfold execOp
  rw [nnnOf_eq 1 hi _ (by omega) hhi hlo, n1Of_eq 1 hi _ (by omega) hhi hlo]

theorem execOp_ret (fuel : Nat) (c : Chip8) :
    execOp fuel 0 0xee c =
      (match pop c with
       | .error e => .error e
       | .ok p => .ok (jump p.2 p.1)) := by
  rfl

theorem execOp_bcd (fuel : Nat) (c : Chip8) (x : Nat) (hx : x < 16) :
    execOp fuel (16 * 15 + x) (16 * 3 + 3) c =
      (match memWrite c c.i (c.v x / 100 % 10) with
       | .error e => .error e
       | .ok c1 =>
         match memWrite c1 (c1.i + 1) (c.v x / 10 % 10) with
         | .error e => .error e
         | .ok c2 => memWrite c2 (c2.i + 2) (c.v x % 10)) := by
  unfold execOp
  rw [n1Of_eq 15 x _ (by omega) hx (by omega),
      n2Of_eq 15 x _ (by omega) hx (by omega),
      n3Of_eq _ 3 3 (by omega) (by omega) (by omega),
      n4Of_eq _ 3 3 (by omega) (by omega) (by omega)]

theorem push_ok (c : Chip8) (item : Nat) (h : c.sp < 16) :
    push c item =
      .ok { c with stack := fset c.stack c.sp item, sp := (c.sp + 1) % 256 } := by
  unfold push stackWrite
  rw [if_pos h]

theorem push_oob (c : Chip8) (item : Nat) (h : 16 ≤ c.sp) :
    push c item = .error .oob := by
  unfold push stackWrite
  rw [if_neg (by omega)]

theorem pop_ok (c : Chip8) (h1 : 1 ≤ c.sp) (h2 : c.sp ≤ 16) :
    pop c = .ok (c.stack (c.sp - 1), { c with sp := c.sp - 1 }) := by
  unfold pop stackRead
  rw [show (c.sp + 256 - 1) % 256 = c.sp - 1 by omega, if_pos (by omega)]

/-- State reached after executing `CALL nnn` from `c` (stack slot written,
stack pointer bumped, `pc` set to `nnn - 2` wrapping). -/
def afterCall (c : Chip8) (nnn : Nat) : Chip8 :=
  jump { c with stack := fset c.stack c.sp c.pc, sp := (c.sp + 1) % 256 }
    ((256 * (nnn / 256) + nnn % 256 + 65536 - 2) % 65536)

/-- State after `push`: slot `sp` written, `sp` bumped (wrapping mod 256). -/
def pushed (c : Chip8) (item : Nat) : Chip8 :=
  { c with stack := fset c.stack c.sp item, sp := (c.sp + 1) % 256 }

theorem afterCall_pc (c : Chip8) (nnn : Nat) (h : nnn < 4096) :
    (next (afterCall c nnn)).pc = nnn := by
  show ((256 * (nnn / 256) + nnn % 256 + 65536 - 2) % 65536 + 2) % 65536 = nnn
  omega

theorem afterCall_mem (c : Chip8) (nnn : Nat) : (next (afterCall c nnn)).mem = c.mem := by
  dsimp only [afterCall, next, jump]

theorem afterCall_sp (c : Chip8) (nnn : Nat) (h : c.sp < 16) :
    (next (afterCall c nnn)).sp = c.sp + 1 := by
  show (c.sp + 1) % 256 = c.sp + 1
  omega

theorem afterCall_stack (c : Chip8) (nnn : Nat) :
    (next (afterCall c nnn)).stack = fset c.stack c.sp c.pc := by
  dsimp only [afterCall, next, jump]

theorem eval_ret_pc (fuel : Nat) (d : Chip8) (hpc : d.pc + 1 < 4096)
    (hb0 : d.mem d.pc = 0) (hb1 : d.mem (d.pc + 1) = 238)
    (h1 : 1 ≤ d.sp) (h2 : d.sp ≤ 16) :
    ∃ c2, eval fuel d = .ok c2 ∧ (next c2).pc = (d.stack (d.sp - 1) + 2) % 65536 := by
  rw [eval_exec fuel d hpc, hb0, hb1, execOp_ret, pop_ok d h1 h2]
  exact ⟨_, rfl, rfl⟩

theorem drwRow_oob (w h bx bd : Nat) (c : Chip8) (yy : Nat) (hi : 4096 ≤ c.i + yy) :
    drwRow w h bx bd c yy = .error .oob := by
  unfold drwRow memRead
  rw [if_neg (by omega)]

/-- C1.  The claim says every memory access address is reduced modulo 4096
before indexing, so no access is out of bounds.  The code masks nothing:
this closed counterexample boots the machine with the ROM
`LD I, 0xFFF; LD B, V1` — after one successful step, the BCD store's
second write indexes `mem[4096]` and the run stops with a fatal
out-of-bounds error instead of wrapping to `mem[0]`. -/
theorem C1_no_mask_cx :
    errOf (steps 0 1 c1boot) = none ∧ errOf (steps 0 2 c1boot) = some Err.oob := by
  decide

/-- C1 (amended).  Memory addresses are used unmasked: an instruction fetch
with `PC ≥ 4096` fails fatally out of bounds, and a `DRW` sprite read with
`I ≥ 4096` (n ≥ 1) fails fatally out of bounds, rather than the address
wrapping modulo 4096. -/
theorem C1_no_mask :
    (∀ fuel c, 4096 ≤ c.pc → eval fuel c = .error .oob) ∧
    (∀ fuel c x y n, x < 16 → y < 16 → 1 ≤ n → n < 16 → c.pc + 1 < 4096 →
      c.mem c.pc = 16 * 13 + x → c.mem (c.pc + 1) = 16 * y + n →
      4096 ≤ c.i → eval fuel c = .error .oob) := by
  constructor
  · intro fuel c h
    unfold eval memRead
    rw [if_neg (by omega)]
  · intro fuel c x y n hx hy hn1 hn hpc hb0 hb1 hi
    rw [eval_exec fuel c hpc, hb0, hb1, execOp_drw fuel c x y n hx hy hn]
    obtain ⟨m, rfl⟩ : ∃ m, n = m + 1 := ⟨n - 1, by omega⟩
    rw [List.range_succ_eq_map]
    simp only [foldE]
    rw [drwRow_oob _ _ _ _ _ 0 (by show 4096 ≤ c.i + 0; omega)]

/-- C1 witness: a state with `PC = 5000` fetches out of bounds. -/
theorem C1_no_mask_witness :
    4096 ≤ cw1.pc ∧ eval 0 cw1 = .error .oob :=
  ⟨by decide, C1_no_mask.1 0 cw1 (by decide)⟩

/-- C2.  The claim says the 17th nested `CALL` silently reuses stack slot 0.
It does not: this closed counterexample boots a ROM of 17 nested `CALL`s;
16 of them execute fine, and the 17th — `sp` having reached 16 — indexes
`stack[16]` of the 16-entry stack and stops with a fatal out-of-bounds
error instead of writing slot 0. -/
theorem C2_stack_cx :
    errOf (steps 0 16 c2boot) = none ∧ errOf (steps 0 17 c2boot) = some Err.oob := by
  decide

/-- C2 (amended).  For `sp < 16` a push followed by the matching pop
returns the exact pushed return address and restores `sp`; there is no
overflow detection, but once `sp` has reached 16 (the 17th nested call) a
further push fails fatally out of bounds instead of silently reusing
slot 0. -/
theorem C2_stack_roundtrip :
    (∀ c item, c.sp < 16 →
      ∃ c2, push c item = .ok c2 ∧ c2.sp = c.sp + 1 ∧
        pop c2 = .ok (item, { c2 with sp := c.sp })) ∧
    (∀ c item, 16 ≤ c.sp → push c item = .error .oob) := by
  constructor
  · intro c item hsp
    refine ⟨pushed c item, by rw [push_ok c item hsp]; rfl, ?_, ?_⟩
    · show (c.sp + 1) % 256 = c.sp + 1
      omega
    · rw [pop_ok (pushed c item) (by show 1 ≤ (c.sp + 1) % 256; omega)
        (by show (c.sp + 1) % 256 ≤ 16; omega)]
      have e1 : (pushed c item).sp - 1 = c.sp := by
        show (c.sp + 1) % 256 - 1 = c.sp
        omega
      rw [e1]
      have e2 : (pushed c item).stack c.sp = item := by
        show fset c.stack c.sp item c.sp = item
        simp [fset]
      rw [e2]
  · intro c item hsp
    exact push_oob c item hsp

/-- C2 witness: pushing 777 onto the fresh machine and popping returns it. -/
theorem C2_stack_roundtrip_witness :
    (newChip8 hw0).sp < 16 ∧
    ∃ c2, push (newChip8 hw0) 777 = .ok c2 ∧ c2.sp = (newChip8 hw0).sp + 1 ∧
      pop c2 = .ok (777, { c2 with sp := (newChip8 hw0).sp }) :=
  ⟨by decide, C2_stack_roundtrip.1 (newChip8 hw0) 777 (by decide)⟩

/-- C4.  Jump/call targets use the `target - 2` convention so that the
unconditional post-instruction `+2` lands exactly on the target: executing
`CALL nnn` and then advancing lands at `nnn`; if a `RET` sits at `nnn`,
executing it and advancing restores `PC` to two bytes after the original
`CALL`; and `JP nnn` likewise lands exactly at `nnn`. -/
theorem C4_call_ret_jp :
    (∀ fuel c nnn, nnn < 4096 → c.pc + 1 < 4096 → c.sp < 16 →
      c.mem c.pc = 16 * 2 + nnn / 256 → c.mem (c.pc + 1) = nnn % 256 →
      ∃ c1, eval fuel c = .ok c1 ∧ (next c1).pc = nnn ∧
        (nnn + 1 < 4096 → c.mem nnn = 0 → c.mem (nnn + 1) = 238 →
          ∃ c2, eval fuel (next c1) = .ok c2 ∧ (next c2).pc = (c.pc + 2) % 65536)) ∧
    (∀ fuel c nnn, nnn < 4096 → c.pc + 1 < 4096 →
      c.mem c.pc = 16 * 1 + nnn / 256 → c.mem (c.pc + 1) = nnn % 256 →
      ∃ c1, eval fuel c = .ok c1 ∧ (next c1).pc = nnn) := by
  constructor
  · intro fuel c nnn hn hpc hsp hb0 hb1
    refine ⟨afterCall c nnn, ?_, afterCall_pc c nnn hn, ?_⟩
    · rw [eval_exec fuel c hpc, hb0, hb1,
          execOp_call fuel c (nnn / 256) (nnn % 256) (by omega) (by omega),
          push_ok c c.pc hsp]
      rfl
    · intro hn1 hm0 hm1
      obtain ⟨c2, he2, hp2⟩ := eval_ret_pc fuel (next (afterCall c nnn))
        (by rw [afterCall_pc c nnn hn]; omega)
        (by rw [afterCall_mem, afterCall_pc c nnn hn]; exact hm0)
        (by rw [afterCall_mem, afterCall_pc c nnn hn]; exact hm1)
        (by rw [afterCall_sp c nnn hsp]; omega)
        (by rw [afterCall_sp c nnn hsp]; omega)
      refine ⟨c2, he2, ?_⟩
      rw [hp2, afterCall_stack, afterCall_sp c nnn hsp]
      have hidx : c.sp + 1 - 1 = c.sp := by omega
      rw [hidx]
      simp [fset]
  · intro fuel c nnn hn hpc hb0 hb1
    rw [eval_exec fuel c hpc, hb0, hb1,
        execOp_jp fuel c (nnn / 256) (nnn % 256) (by omega) (by omega)]
    refine ⟨_, rfl, ?_⟩
    show ((256 * (nnn / 256) + nnn % 256 + 65536 - 2) % 65536 + 2) % 65536 = nnn
    omega

/-- C4 witness: `CALL 600` from 512 lands at 600, the `RET` there returns
to 514; `JP 600` from 512 lands at 600. -/
theorem C4_call_ret_jp_witness :
    ((600 : Nat) < 4096 ∧ cw4.pc + 1 < 4096 ∧ cw4.sp < 16 ∧
      cw4.mem cw4.pc = 16 * 2 + 600 / 256 ∧ cw4.mem (cw4.pc + 1) = 600 % 256 ∧
      ∃ c1, eval 0 cw4 = .ok c1 ∧ (next c1).pc = 600 ∧
        (600 + 1 < 4096 → cw4.mem 600 = 0 → cw4.mem (600 + 1) = 238 →
          ∃ c2, eval 0 (next c1) = .ok c2 ∧ (next c2).pc = (cw4.pc + 2) % 65536)) ∧
    (cw4b.mem cw4b.pc = 16 * 1 + 600 / 256 ∧ cw4b.mem (cw4b.pc + 1) = 600 % 256 ∧
      ∃ c1, eval 0 cw4b = .ok c1 ∧ (next c1).pc = 600) :=
  ⟨⟨by decide, by decide, by decide, by decide, by decide,
    C4_call_ret_jp.1 0 cw4 600 (by decide) (by decide) (by decide) (by decide) (by decide)⟩,
   ⟨by decide, by decide,
    C4_call_ret_jp.2 0 cw4b 600 (by decide) (by decide) (by decide) (by decide)⟩⟩

/-- C7.  The claim says `ADD I, Vx` leaves `I = (I + Vx) mod 4096`.  It
wraps modulo 65536 (16-bit width), not 4096: from `I = 4095`, `V1 = 10`,
the code yields `I = 4105`, while `(4095 + 10) mod 4096 = 9`. -/
theorem C7_addI_cx :
    okI (eval 0 c7cx) = some 4105 ∧ 4105 ≠ (c7cx.i + c7cx.v 1) % 4096 := by
  decide

/-- C7 (amended).  `ADD I, Vx` (`Fx1E`) leaves `I = (I + Vx) mod 65536`
— 16-bit wraparound, never an error — and changes nothing else. -/
theorem C7_addI_wrap16 (fuel : Nat) (c : Chip8) (x : Nat) (hx : x < 16)
    (hpc : c.pc + 1 < 4096) (hb0 : c.mem c.pc = 16 * 15 + x)
    (hb1 : c.mem (c.pc + 1) = 16 * 1 + 14) :
    eval fuel c = .ok { c with i := (c.i + c.v x) % 65536 } := by
  rw [eval_exec fuel c hpc, hb0, hb1, execOp_addI fuel c x hx]

/-- C7 witness: `ADD I, V1` with `I = 100`, `V1 = 7` gives `I = 107`. -/
theorem C7_addI_wrap16_witness :
    ((1 : Nat) < 16 ∧ cw7.pc + 1 < 4096 ∧ cw7.mem cw7.pc = 16 * 15 + 1 ∧
      cw7.mem (cw7.pc + 1) = 16 * 1 + 14) ∧
    eval 0 cw7 = .ok { cw7 with i := (cw7.i + cw7.v 1) % 65536 } :=
  ⟨⟨by decide, by decide, by decide, by decide⟩,
   C7_addI_wrap16 0 cw7 1 (by decide) (by decide) (by decide) (by decide)⟩

/-- C8.  `ADD Vx, Vy` (`8xy4`) leaves `VF = 1` iff `Vx + Vy > 255`, and
`SUB Vx, Vy` (`8xy5`) leaves `VF = 1` iff `Vx ≥ Vy` (no borrow); the flag
is stored after the result, so this holds for `x = 0xF` as well. -/
theorem C8_add_sub_flags :
    (∀ fuel c x y, x < 16 → y < 16 → c.pc + 1 < 4096 →
      c.mem c.pc = 16 * 8 + x → c.mem (c.pc + 1) = 16 * y + 4 →
      ∃ c2, eval fuel c = .ok c2 ∧ (c2.v 15 = 1 ↔ 255 < c.v x + c.v y)) ∧
    (∀ fuel c x y, x < 16 → y < 16 → c.pc + 1 < 4096 →
      c.mem c.pc = 16 * 8 + x → c.mem (c.pc + 1) = 16 * y + 5 →
      ∃ c2, eval fuel c = .ok c2 ∧ (c2.v 15 = 1 ↔ c.v y ≤ c.v x)) := by
  constructor
  · intro fuel c x y hx hy hpc hb0 hb1
    rw [eval_exec fuel c hpc, hb0, hb1, execOp_add8 fuel c x y hx hy]
    refine ⟨_, rfl, ?_⟩
    simp only [fset, if_pos]
    split <;> omega
  · intro fuel c x y hx hy hpc hb0 hb1
    rw [eval_exec fuel c hpc, hb0, hb1, execOp_sub8 fuel c x y hx hy]
    refine ⟨_, rfl, ?_⟩
    simp only [fset, if_pos]
    split <;> omega

/-- C8 witness: `ADD V1, V2` with 200 + 100 sets `VF = 1`; `SUB V1, V2`
with 200 - 100 sets `VF = 1`. -/
theorem C8_add_sub_flags_witness :
    (cw8a.mem cw8a.pc = 16 * 8 + 1 ∧ cw8a.mem (cw8a.pc + 1) = 16 * 2 + 4 ∧
      ∃ c2, eval 0 cw8a = .ok c2 ∧ (c2.v 15 = 1 ↔ 255 < cw8a.v 1 + cw8a.v 2)) ∧
    (cw8b.mem cw8b.pc = 16 * 8 + 1 ∧ cw8b.mem (cw8b.pc + 1) = 16 * 2 + 5 ∧
      ∃ c2, eval 0 cw8b = .ok c2 ∧ (c2.v 15 = 1 ↔ cw8b.v 2 ≤ cw8b.v 1)) :=
  ⟨⟨by decide, by decide,
    C8_add_sub_flags.1 0 cw8a 1 2 (by decide) (by decide) (by decide) (by decide) (by decide)⟩,
   ⟨by decide, by decide,
    C8_add_sub_flags.2 0 cw8b 1 2 (by decide) (by decide) (by decide) (by decide) (by decide)⟩⟩

/-- C10.  For `x = 0xF` the arithmetic result of `8xy4`/`8xy5`/`8xy7` is
discarded: the flag is stored after the result, so the final `VF` is the
carry / no-borrow flag (0 or 1) computed from the original register
values, not the computed sum or difference. -/
theorem C10_vf_flag_last (fuel : Nat) (c : Chip8) (y : Nat) (hy : y < 16)
    (hpc : c.pc + 1 < 4096) (hb0 : c.mem c.pc = 16 * 8 + 15) :
    (c.mem (c.pc + 1) = 16 * y + 4 →
      ∃ c2, eval fuel c = .ok c2 ∧
        c2.v 15 = (if 256 ≤ c.v 15 + c.v y then 1 else 0) ∧ c2.v 15 ≤ 1) ∧
    (c.mem (c.pc + 1) = 16 * y + 5 →
      ∃ c2, eval fuel c = .ok c2 ∧
        c2.v 15 = (if c.v 15 < c.v y then 0 else 1) ∧ c2.v 15 ≤ 1) ∧
    (c.mem (c.pc + 1) = 16 * y + 7 →
      ∃ c2, eval fuel c = .ok c2 ∧
        c2.v 15 = (if c.v y < c.v 15 then 0 else 1) ∧ c2.v 15 ≤ 1) := by
  refine ⟨?_, ?_, ?_⟩ <;> intro hb1
  · rw [eval_exec fuel c hpc, hb0, hb1, execOp_add8 fuel c 15 y (by omega) hy]
    refine ⟨_, rfl, ?_, ?_⟩
    · simp [fset]
    · simp [fset]
      split <;> omega
  · rw [eval_exec fuel c hpc, hb0, hb1, execOp_sub8 fuel c 15 y (by omega) hy]
    refine ⟨_, rfl, ?_, ?_⟩
    · simp [fset]
    · simp [fset]
      split <;> omega
  · rw [eval_exec fuel c hpc, hb0, hb1, execOp_subn8 fuel c 15 y (by omega) hy]
    refine ⟨_, rfl, ?_, ?_⟩
    · simp [fset]
    · simp [fset]
      split <;> omega

/-- C10 witness: `ADD VF, V2` with `VF = 200`, `V2 = 100` leaves
`VF = 1` (the carry), not 44 (the wrapped sum). -/
theorem C10_vf_flag_last_witness :
    ((2 : Nat) < 16 ∧ cw10.pc + 1 < 4096 ∧ cw10.mem cw10.pc = 16 * 8 + 15 ∧
      cw10.mem (cw10.pc + 1) = 16 * 2 + 4) ∧
    ∃ c2, eval 0 cw10 = .ok c2 ∧
      c2.v 15 = (if 256 ≤ cw10.v 15 + cw10.v 2 then 1 else 0) ∧ c2.v 15 ≤ 1 :=
  ⟨⟨by decide, by decide, by decide, by decide⟩,
   (C10_vf_flag_last 0 cw10 2 (by decide) (by decide) (by decide)).1 (by decide)⟩

theorem tick_fields (d : Chip8) :
    (tick d).dt = d.dt - 1 ∧ (tick d).st = d.st - 1 ∧
    (tick d).hw.beeps = d.hw.beeps + (if d.st = 1 then 1 else 0) ∧
    (tick d).time = d.time ∧ (tick d).hw.clkf = d.hw.clkf ∧
    (tick d).hw.clkn = d.hw.clkn := by
  by_cases hdt : 0 < d.dt <;> by_cases hst : 0 < d.st <;> by_cases hst1 : d.st - 1 = 0 <;>
    simp [tick, beep, hdt, hst, hst1] <;> (try split_ifs) <;> omega

theorem C3_step (N k : Nat) (hk : k < N) (hN : N < 256) :
    sched (C3at N k) = C3at N (k + 1) := by
  have hcond : 16666666 <
      ((2 * k + 1) * 1000000000 % 18446744073709551616 + 18446744073709551616 -
        2 * k * 1000000000 % 18446744073709551616) % 18446744073709551616 := by
    omega
  simp [sched, hwSched, clockRead, shutdown, tick, beep, wsub64, C3at, newChip8, C3hw, hw0,
        hk, hcond, Chip8.mk.injEq, Hw.mk.injEq]
  omega

theorem C3_iter (N : Nat) (hN : N < 256) :
    ∀ k j, j + k ≤ N → schedN k (C3at N j) = C3at N (j + k) := by
  intro k
  induction k with
  | zero => intro j h; rfl
  | succ m ih =>
    intro j h
    show schedN m (sched (C3at N j)) = _
    rw [C3_step N j (by omega) hN, ih (j + 1) (by omega),
        show j + 1 + m = j + (m + 1) by omega]

theorem C3_parts :
    (∀ c, c.time = none → (sched c).dt = c.dt ∧ (sched c).st = c.st ∧
      (sched c).hw.beeps = c.hw.beeps ∧
      (sched c).time = some (c.hw.clkf c.hw.clkn % 2 ^ 64)) ∧
    (∀ c t, c.time = some t →
      16666666 < wsub64 (c.hw.clkf c.hw.clkn % 2 ^ 64) t →
      (sched c).dt = c.dt - 1 ∧ (sched c).st = c.st - 1 ∧
      (sched c).hw.beeps = c.hw.beeps + (if c.st = 1 then 1 else 0) ∧
      (sched c).time = some (c.hw.clkf (c.hw.clkn + 1) % 2 ^ 64)) ∧
    (∀ c t, c.time = some t →
      ¬ 16666666 < wsub64 (c.hw.clkf c.hw.clkn % 2 ^ 64) t →
      (sched c).dt = c.dt ∧ (sched c).st = c.st ∧
      (sched c).hw.beeps = c.hw.beeps ∧ (sched c).time = c.time) := by
  refine ⟨?_, ?_, ?_⟩
  · intro c h
    cases hsf : c.hw.schedf c.hw.schedn <;>
      simp [sched, hwSched, shutdown, clockRead, tick, beep, wsub64, h, hsf]
  · intro c t h hlt
    have hlt2 := hlt
    norm_num at hlt2
    cases hsf : c.hw.schedf c.hw.schedn <;>
      · simp [sched, hwSched, shutdown, clockRead, h, hsf, hlt2]
        rw [(tick_fields _).1, (tick_fields _).2.1, (tick_fields _).2.2.1,
            (tick_fields _).2.2.2.2.1, (tick_fields _).2.2.2.2.2]
        simp
  · intro c t h hlt
    cases hsf : c.hw.schedf c.hw.schedn <;>
      · simp [sched, hwSched, shutdown, clockRead, h, hsf]
        rw [if_neg (by simpa using hlt)]
        simp

/-- C3.  One scheduling step: with no recorded timestamp, it is recorded
and no tick occurs; with a recorded timestamp and elapsed time over the
1/60 s threshold (the code's `> 16666666` ns test, equivalent to
`≥ 1/60 s` for integer nanoseconds), exactly one tick runs — `DT` and `ST`
each decrement by one (floored at 0), the adapter is beeped exactly when
`ST` hits 0 as a result (`ST = 1` before), and the fresh clock reading is
recorded; below the threshold nothing changes.  At most one tick happens
per call even for larger-than-1/60 s jumps: with a clock advancing a full
second per reading, `DT` started at `N` is `N - k` after `k` scheduling
steps, reaching 0 after exactly `N` of them. -/
theorem C3_sched_tick :
    (∀ c, c.time = none → (sched c).dt = c.dt ∧ (sched c).st = c.st ∧
      (sched c).hw.beeps = c.hw.beeps ∧
      (sched c).time = some (c.hw.clkf c.hw.clkn % 2 ^ 64)) ∧
    (∀ c t, c.time = some t →
      16666666 < wsub64 (c.hw.clkf c.hw.clkn % 2 ^ 64) t →
      (sched c).dt = c.dt - 1 ∧ (sched c).st = c.st - 1 ∧
      (sched c).hw.beeps = c.hw.beeps + (if c.st = 1 then 1 else 0) ∧
      (sched c).time = some (c.hw.clkf (c.hw.clkn + 1) % 2 ^ 64)) ∧
    (∀ c t, c.time = some t →
      ¬ 16666666 < wsub64 (c.hw.clkf c.hw.clkn % 2 ^ 64) t →
      (sched c).dt = c.dt ∧ (sched c).st = c.st ∧
      (sched c).hw.beeps = c.hw.beeps ∧ (sched c).time = c.time) ∧
    (∀ N k, N < 256 → k ≤ N → (schedN k (C3at N 0)).dt = N - k) := by
  refine ⟨C3_parts.1, C3_parts.2.1, C3_parts.2.2, ?_⟩
  intro N k hN hk
  rw [C3_iter N hN k 0 (by omega), show 0 + k = k by omega]
  rfl

/-- C3 witness: with the one-second-per-reading clock, `DT = 3` reaches 0
after exactly 3 scheduling steps (and is still 1 after 2). -/
theorem C3_sched_tick_witness :
    ((3 : Nat) < 256 ∧ 3 ≤ 3 ∧ 2 ≤ 3) ∧
    (schedN 3 (C3at 3 0)).dt = 3 - 3 ∧ (schedN 2 (C3at 3 0)).dt = 3 - 2 :=
  ⟨⟨by decide, by decide, by decide⟩,
   C3_sched_tick.2.2.2 3 3 (by decide) (by decide),
   C3_sched_tick.2.2.2 3 2 (by decide) (by decide)⟩

theorem fset_fset (f : Nat → Nat) (k a b : Nat) : fset (fset f k a) k b = fset f k b := by
  funext j
  unfold fset
  by_cases h : j = k <;> simp [h]

theorem toNat_or (a b : Bool) : a.toNat ||| b.toNat = (a || b).toNat := by
  cases a <;> cases b <;> rfl

theorem fset_same (f : Nat → Nat) (k a : Nat) : fset f k a k = a := by
  simp [fset]

theorem drwBit_step (base : Chip8) (w h basex basey : Nat) (sprite : Nat → Nat)
    (hw1 : 0 < w) (fb : Nat → Nat → Bool) (col : Bool) (r xx : Nat) :
    drwBit w ((r + basey) % h) (sprite r) basex (withDraw base fb col.toNat) xx =
      .ok (withDraw base
        (drawSpecStep w h basex basey sprite (fb, col) (r, xx)).1
        (drawSpecStep w h basex basey sprite (fb, col) (r, xx)).2.toNat) := by
  unfold drwBit drawSpecStep withDraw
  rw [if_neg (by omega)]
  simp [Nat.testBit_to_div_mod, toNat_or, fset_fset, fset_same, Nat.add_comm, Bool.xor_comm,
        Chip8.mk.injEq, Hw.mk.injEq]

theorem foldE_bits (base : Chip8) (w h basex basey : Nat) (sprite : Nat → Nat)
    (hw1 : 0 < w) (r : Nat) :
    ∀ (L : List Nat) (fb : Nat → Nat → Bool) (col : Bool),
    foldE (drwBit w ((r + basey) % h) (sprite r) basex) L (withDraw base fb col.toNat) =
      .ok (withDraw base
        (L.foldl (fun p xx => drawSpecStep w h basex basey sprite p (r, xx)) (fb, col)).1
        (L.foldl (fun p xx => drawSpecStep w h basex basey sprite p (r, xx)) (fb, col)).2.toNat) := by
  intro L
  induction L with
  | nil => intro fb col; rfl
  | cons a L ih =>
    intro fb col
    simp only [foldE]
    rw [drwBit_step base w h basex basey sprite hw1 fb col r a]
    show foldE _ L _ = _
    rw [ih (drawSpecStep w h basex basey sprite (fb, col) (r, a)).1
          (drawSpecStep w h basex basey sprite (fb, col) (r, a)).2]
    simp only [List.foldl_cons]

theorem foldE_rows (base : Chip8) (w h basex basey : Nat) (hw1 : 0 < w) (hh1 : 0 < h) :
    ∀ (R : List Nat) (fb : Nat → Nat → Bool) (col : Bool),
    (∀ yy ∈ R, base.i + yy < 4096) →
    foldE (drwRow w h basex basey) R (withDraw base fb col.toNat) =
      .ok (withDraw base
        ((R.flatMap (fun r => (List.range 8).map (fun b => (r, b)))).foldl
          (drawSpecStep w h basex basey (fun r => base.mem (base.i + r))) (fb, col)).1
        ((R.flatMap (fun r => (List.range 8).map (fun b => (r, b)))).foldl
          (drawSpecStep w h basex basey (fun r => base.mem (base.i + r))) (fb, col)).2.toNat) := by
  intro R
  induction R with
  | nil => intro fb col hmem; rfl
  | cons r R ih =>
    intro fb col hmem
    simp only [foldE]
    have hrow : drwRow w h basex basey (withDraw base fb col.toNat) r =
        foldE (drwBit w ((r + basey) % h) (base.mem (base.i + r)) basex) (List.range 8)
          (withDraw base fb col.toNat) := by
      unfold drwRow memRead
      rw [if_pos (show (withDraw base fb col.toNat).i + r < 4096 from hmem r (by simp))]
      show (if h = 0 then Except.error Err.divzero
            else foldE (drwBit w ((r + basey) % h)
              ((withDraw base fb col.toNat).mem ((withDraw base fb col.toNat).i + r)) basex)
              (List.range 8) (withDraw base fb col.toNat)) = _
      rw [if_neg (by omega)]
      rfl
    rw [hrow, foldE_bits base w h basex basey (fun q => base.mem (base.i + q)) hw1 r (List.range 8) fb col]
    show foldE _ R _ = _
    rw [ih _ _ (fun yy hy => hmem yy (by simp [hy]))]
    simp only [List.flatMap_cons, List.foldl_append, List.foldl_map]

theorem eval_drw_spec (fuel : Nat) (c : Chip8) (x y n : Nat)
    (hx : x < 16) (hy : y < 16) (hn : n < 16)
    (hpc : c.pc + 1 < 4096)
    (hb0 : c.mem c.pc = 16 * 13 + x) (hb1 : c.mem (c.pc + 1) = 16 * y + n)
    (hin : c.i + n ≤ 4096) (hw1 : 0 < c.hw.fbw) (hh1 : 0 < c.hw.fbh) :
    eval fuel c = .ok (withDraw c
      (drawSpec c.hw.fbw c.hw.fbh (c.v x) (c.v y) n (fun r => c.mem (c.i + r)) c.hw.fb).1
      (drawSpec c.hw.fbw c.hw.fbh (c.v x) (c.v y) n (fun r => c.mem (c.i + r)) c.hw.fb).2.toNat) := by
  rw [eval_exec fuel c hpc, hb0, hb1, execOp_drw fuel c x y n hx hy hn]
  have h0 : ({ c with v := fset c.v 15 0 } : Chip8) = withDraw c c.hw.fb (false : Bool).toNat := by
    rfl
  rw [h0, foldE_rows c c.hw.fbw c.hw.fbh (c.v x) (c.v y) hw1 hh1 (List.range n) c.hw.fb false
        (by intro yy hy2; rw [List.mem_range] at hy2; omega)]
  rfl

theorem drawSteps_char (w h basex basey : Nat) (sprite : Nat → Nat) :
    ∀ (L : List (Nat × Nat)) (fb : Nat → Nat → Bool) (col : Bool),
    List.Nodup (L.map (fun rb => ((basex + rb.2) % w, (basey + rb.1) % h))) →
    (∀ p1 p2, ((p1, p2) : Nat × Nat) ∉
        L.map (fun rb => ((basex + rb.2) % w, (basey + rb.1) % h)) →
      (L.foldl (drawSpecStep w h basex basey sprite) (fb, col)).1 p1 p2 = fb p1 p2) ∧
    (∀ rb ∈ L,
      (L.foldl (drawSpecStep w h basex basey sprite) (fb, col)).1
          ((basex + rb.2) % w) ((basey + rb.1) % h)
        = xor (fb ((basex + rb.2) % w) ((basey + rb.1) % h))
            (Nat.testBit (sprite rb.1) (7 - rb.2))) ∧
    ((L.foldl (drawSpecStep w h basex basey sprite) (fb, col)).2 = true ↔
      col = true ∨ ∃ rb ∈ L, Nat.testBit (sprite rb.1) (7 - rb.2) = true ∧
        fb ((basex + rb.2) % w) ((basey + rb.1) % h) = true) := by
  intro L
  induction L with
  | nil =>
    intro fb col hnd
    refine ⟨fun p1 p2 _ => rfl, fun rb hrb => absurd hrb (List.not_mem_nil rb), ?_⟩
    simp
  | cons a L ih =>
    intro fb col hnd
    rw [List.map_cons, List.nodup_cons] at hnd
    obtain ⟨hta, hndL⟩ := hnd
    obtain ⟨ih1, ih2, ih3⟩ := ih
      (fset2 fb ((basex + a.2) % w) ((basey + a.1) % h)
        (xor (fb ((basex + a.2) % w) ((basey + a.1) % h)) (Nat.testBit (sprite a.1) (7 - a.2))))
      (col || (Nat.testBit (sprite a.1) (7 - a.2) && fb ((basex + a.2) % w) ((basey + a.1) % h)))
      hndL
    have hstep : (a :: L).foldl (drawSpecStep w h basex basey sprite) (fb, col) =
        L.foldl (drawSpecStep w h basex basey sprite)
          (fset2 fb ((basex + a.2) % w) ((basey + a.1) % h)
            (xor (fb ((basex + a.2) % w) ((basey + a.1) % h)) (Nat.testBit (sprite a.1) (7 - a.2))),
           col || (Nat.testBit (sprite a.1) (7 - a.2) && fb ((basex + a.2) % w) ((basey + a.1) % h))) := by
      rfl
    rw [hstep]
    refine ⟨?_, ?_, ?_⟩
    · intro p1 p2 hp
      rw [List.map_cons, List.mem_cons] at hp
      push_neg at hp
      rw [ih1 p1 p2 hp.2]
      unfold fset2
      rw [if_neg (by
        intro hcon
        exact hp.1 (by rw [hcon.1, hcon.2]))]
    · intro rb hrb
      rw [List.mem_cons] at hrb
      rcases hrb with hrb | hrb
      · subst hrb
        rw [ih1 _ _ hta]
        unfold fset2
        rw [if_pos ⟨rfl, rfl⟩]
      · have hne : ((basex + rb.2) % w, (basey + rb.1) % h) ≠
            ((basex + a.2) % w, (basey + a.1) % h) := by
          intro hcon
          apply hta
          rw [← hcon]
          exact List.mem_map_of_mem _ hrb
        rw [ih2 rb hrb]
        unfold fset2
        rw [if_neg (by
          intro hcon
          exact hne (by rw [hcon.1, hcon.2]))]
    · rw [ih3]
      constructor
      · rintro (hc | ⟨rb, hrb, hbit, hfb⟩)
        · rw [Bool.or_eq_true] at hc
          rcases hc with hc | hc
          · exact Or.inl hc
          · rw [Bool.and_eq_true] at hc
            exact Or.inr ⟨a, List.mem_cons_self a L, hc.1, hc.2⟩
        · have hne : ((basex + rb.2) % w, (basey + rb.1) % h) ≠
              ((basex + a.2) % w, (basey + a.1) % h) := by
            intro hcon
            apply hta
            rw [← hcon]
            exact List.mem_map_of_mem _ hrb
          refine Or.inr ⟨rb, List.mem_cons_of_mem a hrb, hbit, ?_⟩
          revert hfb
          unfold fset2
          rw [if_neg (by
            intro hcon
            exact hne (by rw [hcon.1, hcon.2]))]
          exact id
      · rintro (hc | ⟨rb, hrb, hbit, hfb⟩)
        · exact Or.inl (by rw [hc]; rfl)
        · rw [List.mem_cons] at hrb
          rcases hrb with hrb | hrb
          · subst hrb
            exact Or.inl (by rw [hbit, hfb]; simp)
          · have hne : ((basex + rb.2) % w, (basey + rb.1) % h) ≠
                ((basex + a.2) % w, (basey + a.1) % h) := by
              intro hcon
              apply hta
              rw [← hcon]
              exact List.mem_map_of_mem _ hrb
            refine Or.inr ⟨rb, hrb, hbit, ?_⟩
            unfold fset2
            rw [if_neg (by
              intro hcon
              exact hne (by rw [hcon.1, hcon.2]))]
            exact hfb

theorem mem_drawPairs (n : Nat) (rb : Nat × Nat) : rb ∈ drawPairs n ↔ rb.1 < n ∧ rb.2 < 8 := by
  unfold drawPairs
  simp only [List.mem_flatMap, List.mem_map, List.mem_range]
  constructor
  · rintro ⟨r, hr, b, hb, rfl⟩
    exact ⟨hr, hb⟩
  · rintro ⟨h1, h2⟩
    exact ⟨rb.1, h1, rb.2, h2, Prod.mk.eta⟩

theorem drawPairs_nodup (n : Nat) : (drawPairs n).Nodup := by
  induction n with
  | zero => simp [drawPairs]
  | succ m ih =>
    have hsplit : drawPairs (m + 1) = drawPairs m ++ (List.range 8).map (fun b => (m, b)) := by
      unfold drawPairs
      rw [List.range_succ, List.flatMap_append]
      simp
    rw [hsplit]
    refine List.Nodup.append ih ?_ ?_
    · refine List.Nodup.map ?_ (List.nodup_range 8)
      intro b1 b2 hb
      exact (Prod.mk.injEq m b1 m b2).mp hb |>.2
    · intro rb h1 h2
      rw [mem_drawPairs] at h1
      rw [List.mem_map] at h2
      obtain ⟨b, hb, hrb⟩ := h2
      rw [← hrb] at h1
      omega

theorem tgt_nodup (w h basex basey n : Nat) (hbx : basex + 8 ≤ w) (hby : basey + n ≤ h) :
    List.Nodup ((drawPairs n).map
      (fun rb => ((basex + rb.2) % w, (basey + rb.1) % h))) := by
  refine List.Nodup.map_on ?_ (drawPairs_nodup n)
  intro rb1 h1 rb2 h2 heq
  rw [mem_drawPairs] at h1 h2
  rw [Nat.mod_eq_of_lt (by omega), Nat.mod_eq_of_lt (by omega),
      Nat.mod_eq_of_lt (by omega), Nat.mod_eq_of_lt (by omega),
      Prod.mk.injEq] at heq
  have : rb1.1 = rb2.1 := by omega
  have : rb1.2 = rb2.2 := by omega
  exact Prod.ext (by omega) (by omega)

/-- C6.  For a sprite fully inside the framebuffer (`Vx + 8 ≤ w`,
`Vy + n ≤ h`), executing the same DRW twice at the same position restores
the original framebuffer at every pixel (XOR self-inverse), and the second
draw's `VF` is 1 exactly when some sprite 1-bit overlaps a set pixel of
the state produced by the first draw. -/
theorem C6_drw_double (fuel : Nat) (c c1 c2 : Chip8) (x y n : Nat)
    (hx : x < 16) (hy : y < 16) (hn : n < 16) (hx15 : x ≠ 15) (hy15 : y ≠ 15)
    (hpc : c.pc + 3 < 4096)
    (hb0 : c.mem c.pc = 16 * 13 + x) (hb1 : c.mem (c.pc + 1) = 16 * y + n)
    (hb2 : c.mem (c.pc + 2) = 16 * 13 + x) (hb3 : c.mem (c.pc + 3) = 16 * y + n)
    (hin : c.i + n ≤ 4096)
    (hwb : c.v x + 8 ≤ c.hw.fbw) (hhb : c.v y + n ≤ c.hw.fbh) (hh1 : 0 < c.hw.fbh)
    (h1 : eval fuel c = .ok c1) (h2 : eval fuel (next c1) = .ok c2) :
    (∀ p1 p2, c2.hw.fb p1 p2 = c.hw.fb p1 p2) ∧
    (c2.v 15 = 1 ↔ ∃ r, r < n ∧ ∃ b, b < 8 ∧
      Nat.testBit (c.mem (c.i + r)) (7 - b) = true ∧
      c1.hw.fb (c.v x + b) (c.v y + r) = true) := by
  have hw1 : 0 < c.hw.fbw := by omega
  have hev1 := eval_drw_spec fuel c x y n hx hy hn (by omega) hb0 hb1 hin hw1 hh1
  rw [h1] at hev1
  injection hev1 with hc1
  subst hc1
  set F1 := (drawSpec c.hw.fbw c.hw.fbh (c.v x) (c.v y) n (fun r => c.mem (c.i + r)) c.hw.fb).1 with hF1
  set K1 := (drawSpec c.hw.fbw c.hw.fbh (c.v x) (c.v y) n (fun r => c.mem (c.i + r)) c.hw.fb).2 with hK1
  have hdpc : (next (withDraw c F1 K1.toNat)).pc = c.pc + 2 := by
    show (c.pc + 2) % 65536 = c.pc + 2
    omega
  have hdmem : (next (withDraw c F1 K1.toNat)).mem = c.mem := rfl
  have hdi : (next (withDraw c F1 K1.toNat)).i = c.i := rfl
  have hdvx : (next (withDraw c F1 K1.toNat)).v x = c.v x := by
    show fset c.v 15 K1.toNat x = c.v x
    simp [fset, hx15]
  have hdvy : (next (withDraw c F1 K1.toNat)).v y = c.v y := by
    show fset c.v 15 K1.toNat y = c.v y
    simp [fset, hy15]
  have hdfw : (next (withDraw c F1 K1.toNat)).hw.fbw = c.hw.fbw := rfl
  have hdfh : (next (withDraw c F1 K1.toNat)).hw.fbh = c.hw.fbh := rfl
  have hdfb : (next (withDraw c F1 K1.toNat)).hw.fb = F1 := rfl
  have hev2 := eval_drw_spec fuel (next (withDraw c F1 K1.toNat)) x y n hx hy hn
    (by rw [hdpc]; omega)
    (by rw [hdmem, hdpc]; exact hb2)
    (by rw [hdmem, hdpc]; exact hb3)
    (by rw [hdi]; exact hin)
    (by rw [hdfw]; exact hw1)
    (by rw [hdfh]; exact hh1)
  rw [h2] at hev2
  injection hev2 with hc2
  rw [hdfw, hdfh, hdvx, hdvy, hdfb, hdmem, hdi] at hc2
  have hfb2 : c2.hw.fb =
      (drawSpec c.hw.fbw c.hw.fbh (c.v x) (c.v y) n (fun r => c.mem (c.i + r)) F1).1 := by
    rw [hc2]
    rfl
  have hv2 : c2.v 15 =
      (drawSpec c.hw.fbw c.hw.fbh (c.v x) (c.v y) n (fun r => c.mem (c.i + r)) F1).2.toNat := by
    rw [hc2]
    show fset (next (withDraw c F1 K1.toNat)).v 15
        (drawSpec c.hw.fbw c.hw.fbh (c.v x) (c.v y) n (fun r => c.mem (c.i + r)) F1).2.toNat 15 = _
    exact fset_same _ _ _
  have hunf : ∀ fb : Nat → Nat → Bool,
      drawSpec c.hw.fbw c.hw.fbh (c.v x) (c.v y) n (fun r => c.mem (c.i + r)) fb =
        (drawPairs n).foldl
          (drawSpecStep c.hw.fbw c.hw.fbh (c.v x) (c.v y) (fun r => c.mem (c.i + r)))
          (fb, false) := fun _ => rfl
  rw [hunf] at hfb2 hv2
  have hF1f : F1 = ((drawPairs n).foldl
      (drawSpecStep c.hw.fbw c.hw.fbh (c.v x) (c.v y) (fun r => c.mem (c.i + r)))
      (c.hw.fb, false)).1 := by
    rw [hF1, hunf]
  have hnd := tgt_nodup c.hw.fbw c.hw.fbh (c.v x) (c.v y) n hwb hhb
  have hchar1 := drawSteps_char c.hw.fbw c.hw.fbh (c.v x) (c.v y)
    (fun r => c.mem (c.i + r)) (drawPairs n) c.hw.fb false hnd
  have hchar2 := drawSteps_char c.hw.fbw c.hw.fbh (c.v x) (c.v y)
    (fun r => c.mem (c.i + r)) (drawPairs n) F1 false hnd
  constructor
  · intro p1 p2
    rw [hfb2]
    by_cases hp : ((p1, p2) : Nat × Nat) ∈ (drawPairs n).map
        (fun rb => ((c.v x + rb.2) % c.hw.fbw, (c.v y + rb.1) % c.hw.fbh))
    · obtain ⟨rb, hrb, hrbp⟩ := List.mem_map.mp hp
      rw [Prod.mk.injEq] at hrbp
      obtain ⟨hq1, hq2⟩ := hrbp
      have e2 := hchar2.2.1 rb hrb
      have e1 := hchar1.2.1 rb hrb
      rw [hF1f] at e2
      rw [e1, Bool.xor_assoc, Bool.xor_self, Bool.xor_false] at e2
      rw [← hq1, ← hq2]
      rw [← hF1f] at e2
      exact e2
    · rw [hchar2.1 p1 p2 hp, hF1f, hchar1.1 p1 p2 hp]
  · rw [hv2]
    have htn : ∀ bb : Bool, (bb.toNat = 1) ↔ (bb = true) := by decide
    rw [htn, hchar2.2.2]
    constructor
    · rintro (habs | ⟨rb, hrb, hbit, hfb⟩)
      · exact absurd habs (by decide)
      · rw [mem_drawPairs] at hrb
        refine ⟨rb.1, hrb.1, rb.2, hrb.2, hbit, ?_⟩
        have hwfb : (withDraw c F1 K1.toNat).hw.fb = F1 := rfl
        rw [hwfb]
        rw [Nat.mod_eq_of_lt (by omega), Nat.mod_eq_of_lt (by omega)] at hfb
        exact hfb
    · rintro ⟨r, hr, b, hb, hbit, hfb⟩
      refine Or.inr ⟨(r, b), (mem_drawPairs n (r, b)).mpr ⟨hr, hb⟩, hbit, ?_⟩
      have hwfb : (withDraw c F1 K1.toNat).hw.fb = F1 := rfl
      rw [hwfb] at hfb
      rw [Nat.mod_eq_of_lt (by omega), Nat.mod_eq_of_lt (by omega)]
      exact hfb

/-- C5.  The DRW instruction implements exactly the specification's sprite
algorithm: for each row `r in [0,n)` and bit `b in [0,8)` MSB first, the
pixel at `((Vx+b) mod w, (Vy+r) mod h)` becomes `old XOR sprite_bit` and
`VF`, cleared at the start, ends 1 exactly when some 1-bit overlapped a
set pixel (OR-accumulated in draw order) — `eval` on a DRW equals
`drawSpec`, the second definition written from the spec's words, and
changes nothing but the framebuffer and `VF`. -/
theorem C5_drw_matches_spec (fuel : Nat) (c : Chip8) (x y n : Nat)
    (hx : x < 16) (hy : y < 16) (hn : n < 16)
    (hpc : c.pc + 1 < 4096)
    (hb0 : c.mem c.pc = 16 * 13 + x) (hb1 : c.mem (c.pc + 1) = 16 * y + n)
    (hin : c.i + n ≤ 4096) (hw1 : 0 < c.hw.fbw) (hh1 : 0 < c.hw.fbh) :
    eval fuel c = .ok (withDraw c
      (drawSpec c.hw.fbw c.hw.fbh (c.v x) (c.v y) n (fun r => c.mem (c.i + r)) c.hw.fb).1
      (drawSpec c.hw.fbw c.hw.fbh (c.v x) (c.v y) n (fun r => c.mem (c.i + r)) c.hw.fb).2.toNat) :=
  eval_drw_spec fuel c x y n hx hy hn hpc hb0 hb1 hin hw1 hh1

/-- C5 witness: `DRW V1, V2, 3` at (3, 4) on the 64×32 screen. -/
theorem C5_drw_matches_spec_witness :
    ((1 : Nat) < 16 ∧ (2 : Nat) < 16 ∧ (3 : Nat) < 16 ∧ cw5.pc + 1 < 4096 ∧
      cw5.mem cw5.pc = 16 * 13 + 1 ∧ cw5.mem (cw5.pc + 1) = 16 * 2 + 3 ∧
      cw5.i + 3 ≤ 4096 ∧ 0 < cw5.hw.fbw ∧ 0 < cw5.hw.fbh) ∧
    eval 0 cw5 = .ok (withDraw cw5
      (drawSpec cw5.hw.fbw cw5.hw.fbh (cw5.v 1) (cw5.v 2) 3
        (fun r => cw5.mem (cw5.i + r)) cw5.hw.fb).1
      (drawSpec cw5.hw.fbw cw5.hw.fbh (cw5.v 1) (cw5.v 2) 3
        (fun r => cw5.mem (cw5.i + r)) cw5.hw.fb).2.toNat) :=
  ⟨⟨by decide, by decide, by decide, by decide, by decide, by decide, by decide,
    by decide, by decide⟩,
   C5_drw_matches_spec 0 cw5 1 2 3 (by decide) (by decide) (by decide) (by decide)
     (by decide) (by decide) (by decide) (by decide) (by decide)⟩

/-- C6 witness: the 3-row sprite drawn twice at (3, 4) on the 64×32
screen restores every pixel, and the second draw's `VF` reflects overlap
with the first draw's framebuffer. -/
theorem C6_drw_double_witness :
    ((1 : Nat) ≠ 15 ∧ (2 : Nat) ≠ 15 ∧ cw6.pc + 3 < 4096 ∧
      cw6.mem cw6.pc = 16 * 13 + 1 ∧ cw6.mem (cw6.pc + 1) = 16 * 2 + 3 ∧
      cw6.mem (cw6.pc + 2) = 16 * 13 + 1 ∧ cw6.mem (cw6.pc + 3) = 16 * 2 + 3 ∧
      cw6.i + 3 ≤ 4096 ∧ cw6.v 1 + 8 ≤ cw6.hw.fbw ∧ cw6.v 2 + 3 ≤ cw6.hw.fbh ∧
      eval 0 cw6 = .ok cw6a ∧ eval 0 (next cw6a) = .ok cw6b) ∧
    (∀ p1 p2, cw6b.hw.fb p1 p2 = cw6.hw.fb p1 p2) ∧
    (cw6b.v 15 = 1 ↔ ∃ r, r < 3 ∧ ∃ b, b < 8 ∧
      Nat.testBit (cw6.mem (cw6.i + r)) (7 - b) = true ∧
      cw6a.hw.fb (cw6.v 1 + b) (cw6.v 2 + r) = true) :=
  ⟨⟨by decide, by decide, by decide, by decide, by decide, by decide, by decide,
    by decide, by decide, by decide,
    eval_drw_spec 0 cw6 1 2 3 (by decide) (by decide) (by decide) (by decide)
      (by decide) (by decide) (by decide) (by decide) (by decide),
    eval_drw_spec 0 (next cw6a) 1 2 3 (by decide) (by decide) (by decide) (by decide)
      (by decide) (by decide) (by decide) (by decide) (by decide)⟩,
   C6_drw_double 0 cw6 cw6a cw6b 1 2 3 (by decide) (by decide) (by decide)
     (by decide) (by decide) (by decide) (by decide) (by decide) (by decide)
     (by decide) (by decide) (by decide) (by decide) (by decide)
     (eval_drw_spec 0 cw6 1 2 3 (by decide) (by decide) (by decide) (by decide)
       (by decide) (by decide) (by decide) (by decide) (by decide))
     (eval_drw_spec 0 (next cw6a) 1 2 3 (by decide) (by decide) (by decide) (by decide)
       (by decide) (by decide) (by decide) (by decide) (by decide))⟩

set_option maxHeartbeats 2000000 in
theorem execOp_fatal (fuel : Nat) (c : Chip8) (a b d e : Nat) (err : Err)
    (ha : a < 16) (hb : b < 16) (hd : d < 16) (he : e < 16)
    (hcls : fatalClass a b d e = some err) :
    execOp fuel (16 * a + b) (16 * d + e) c = .error err := by
  unfold execOp
  rw [n1Of_eq a b _ ha hb (by omega), n2Of_eq a b _ ha hb (by omega),
      n3Of_eq _ d e (by omega) hd he, n4Of_eq _ d e (by omega) hd he]
  interval_cases a
  · rcases Nat.eq_zero_or_pos b with rfl | hbpos
    · interval_cases d <;> (try interval_cases e) <;>
        (simp [fatalClass] at hcls; try subst hcls; try rfl)
    · interval_cases b <;> (simp [fatalClass] at hcls; try subst hcls; try rfl)
  · simp [fatalClass] at hcls
  · simp [fatalClass] at hcls
  · simp [fatalClass] at hcls
  · simp [fatalClass] at hcls
  · interval_cases e <;> (simp [fatalClass] at hcls; try subst hcls; try rfl)
  · simp [fatalClass] at hcls
  · simp [fatalClass] at hcls
  · interval_cases e <;> (simp [fatalClass] at hcls; try subst hcls; try rfl)
  · interval_cases e <;> (simp [fatalClass] at hcls; try subst hcls; try rfl)
  · simp [fatalClass] at hcls
  · simp [fatalClass] at hcls
  · simp [fatalClass] at hcls
  · simp [fatalClass] at hcls
  · interval_cases d <;> (try interval_cases e) <;>
      (simp [fatalClass] at hcls; try subst hcls; try rfl)
  · interval_cases d <;> (try interval_cases e) <;>
      (simp [fatalClass] at hcls; try subst hcls; try rfl)

theorem memWrite_proj (c : Chip8) : ∀ mm : Nat → Nat, ({ c with mem := mm } : Chip8).i = c.i :=
  fun _ => rfl

/-- C9.  The claim says the execute step fails fatally in exactly two
cases (unmatched opcode, `0nnn` SYS).  This closed counterexample executes
`F133` (`LD B, V1` — an instruction that matches the table) with
`I = 0xFFF`: the BCD store stops fatally with an out-of-bounds error,
which is neither of the two claimed cases. -/
theorem C9_fatal_cases_cx :
    errOf (eval 0 c9cx) = some Err.oob ∧ Err.oob ≠ Err.sysop ∧ Err.oob ≠ Err.invalid := by
  decide

/-- C9 (amended).  The execute step fails fatally when the fetched
instruction matches none of the opcode-table patterns (`Err.invalid`) and
when it is a `0nnn` SYS other than `00E0`/`00EE` (`Err.sysop`) — the
classification `fatalClass` of the four nibbles — but those two cases are
not exhaustive: out-of-bounds memory or stack accesses also stop the run
fatally, e.g. the BCD store with `I ≥ 4094`. -/
theorem C9_fatal_cases :
    (∀ fuel c err, c.pc + 1 < 4096 → c.mem c.pc < 256 → c.mem (c.pc + 1) < 256 →
      fatalClass (c.mem c.pc / 16) (c.mem c.pc % 16)
        (c.mem (c.pc + 1) / 16) (c.mem (c.pc + 1) % 16) = some err →
      eval fuel c = .error err) ∧
    (∀ fuel c x, x < 16 → c.pc + 1 < 4096 →
      c.mem c.pc = 16 * 15 + x → c.mem (c.pc + 1) = 16 * 3 + 3 →
      4094 ≤ c.i → eval fuel c = .error .oob) := by
  constructor
  · intro fuel c err hpc hu hl hcls
    rw [eval_exec fuel c hpc]
    obtain ⟨a, b, hab, ha, hb⟩ : ∃ a b, c.mem c.pc = 16 * a + b ∧ a < 16 ∧ b < 16 :=
      ⟨c.mem c.pc / 16, c.mem c.pc % 16, by omega, by omega, by omega⟩
    obtain ⟨d, e, hde, hd, he⟩ : ∃ d e, c.mem (c.pc + 1) = 16 * d + e ∧ d < 16 ∧ e < 16 :=
      ⟨c.mem (c.pc + 1) / 16, c.mem (c.pc + 1) % 16, by omega, by omega, by omega⟩
    rw [show c.mem c.pc / 16 = a by omega, show c.mem c.pc % 16 = b by omega,
        show c.mem (c.pc + 1) / 16 = d by omega,
        show c.mem (c.pc + 1) % 16 = e by omega] at hcls
    rw [hab, hde]
    exact execOp_fatal fuel c a b d e err ha hb hd he hcls
  · intro fuel c x hx hpc hb0 hb1 hi
    rw [eval_exec fuel c hpc, hb0, hb1, execOp_bcd fuel c x hx]
    simp only [memWrite, memWrite_proj]
    rcases (show c.i = 4094 ∨ c.i = 4095 ∨ 4096 ≤ c.i from by omega) with h | h | h
    · rw [if_pos (by omega)]
      dsimp only
      rw [if_pos (by omega)]
      dsimp only
      rw [if_neg (by omega)]
    · rw [if_pos (by omega)]
      dsimp only
      rw [if_neg (by omega)]
    · rw [if_neg (by omega)]

/-- C9 witness: the unmatched opcode `5A21` stops with `Err.invalid`, and
`F133` with `I = 4094` stops with `Err.oob`. -/
theorem C9_fatal_cases_witness :
    (cw9.pc + 1 < 4096 ∧ cw9.mem cw9.pc < 256 ∧ cw9.mem (cw9.pc + 1) < 256 ∧
      fatalClass (cw9.mem cw9.pc / 16) (cw9.mem cw9.pc % 16)
        (cw9.mem (cw9.pc + 1) / 16) (cw9.mem (cw9.pc + 1) % 16) = some Err.invalid ∧
      (1 : Nat) < 16 ∧ cw9b.pc + 1 < 4096 ∧ cw9b.mem cw9b.pc = 16 * 15 + 1 ∧
      cw9b.mem (cw9b.pc + 1) = 16 * 3 + 3 ∧ 4094 ≤ cw9b.i) ∧
    eval 0 cw9 = .error .invalid ∧ eval 0 cw9b = .error .oob :=
  ⟨⟨by decide, by decide, by decide, by decide, by decide, by decide, by decide,
    by decide, by decide⟩,
   C9_fatal_cases.1 0 cw9 .invalid (by decide) (by decide) (by decide) (by decide),
   C9_fatal_cases.2 0 cw9b 1 (by decide) (by decide) (by decide) (by decide) (by decide)⟩
